import Mathlib

/-!
Verification development for the Aflow synchronization and execution kernel.

The Python sources are embedded shallowly:
  - Python dictionaries become association lists with Python dict semantics
    (insertion order, in-place overwrite of an existing key).
  - The Neo4j graph store is modelled as explicit record lists together with
    the documented Cypher semantics of the queries the code issues.
  - Fallible code returns Except.
-/

namespace Aflow

/-! ## Python dict model -/

/-- Python `d[k]`, returning none when the key is absent. -/
def pyGet {α : Type} (d : List (String × α)) (k : String) : Option α :=
  (d.find? (fun p => p.1 == k)).map (fun p => p.2)

/-- Python `k in d`. -/
def pyHas {α : Type} (d : List (String × α)) (k : String) : Bool :=
  (pyGet d k).isSome

/-- Python `d[k] = v`: overwrite in place when the key exists, else append. -/
def pySet {α : Type} (d : List (String × α)) (k : String) (v : α) :
    List (String × α) :=
  if (d.find? (fun p => p.1 == k)).isSome then
    d.map (fun p => if p.1 == k then (k, v) else p)
  else
    d ++ [(k, v)]

/-- Python `d.update(other)`: assign every key of `other` in order. -/
def pyUpdate {α : Type} (d other : List (String × α)) : List (String × α) :=
  other.foldl (fun acc p => pySet acc p.1 p.2) d

/-- Python `", ".join(names)`. -/
def joinComma : List String → String
  | [] => ""
  | [x] => x
  | x :: xs => x ++ ", " ++ joinComma xs

/-- Python `sub in s` for a nonempty pattern `sub`, via splitting. -/
def strContains (s sub : String) : Bool :=
  (s.splitOn sub).length ≥ 2

/-- Python `s.split(sep)` for a one-character separator: cut at every
occurrence, keeping empty pieces (`"".split('.') == ['']`). -/
def pySplitAux (sep : Char) : List Char → List Char → List String
  | [], acc => [String.mk acc.reverse]
  | c :: rest, acc =>
    if c = sep then String.mk acc.reverse :: pySplitAux sep rest []
    else pySplitAux sep rest (c :: acc)

def pySplit (sep : Char) (s : String) : List String :=
  pySplitAux sep s.toList []

/-- Python `s.endswith(suf)`, on the character sequences. -/
def pyEndsWith (s suf : String) : Bool :=
  suf.toList.isSuffixOf s.toList

/-- Python `s.startswith(pre)`, on the character sequences. -/
def pyStartsWith (s pre : String) : Bool :=
  pre.toList.isPrefixOf s.toList

/-! ## Runtime values and tool implementations

`Value` models the Python values flowing through an execution context;
the claims only need integers and strings.  A tool call produces either a
dict (merged into the context) or a plain value. -/

inductive Value where
  | int (n : Int)
  | str (s : String)
  deriving Repr, DecidableEq

/-- Result of one Python tool call. -/
inductive PyResult where
  | dict (entries : List (String × Value))
  | val (v : Value)
  deriving Repr, DecidableEq

/-- An execution context: the mutable name-to-value dict threaded through a run. -/
abbrev Ctx := List (String × Value)

/-- A resolved Python callable, as `execute_task` sees it after
`get_tool_function` and `inspect.signature`:
  - `params` lists the formal parameters in declaration order, each with a
    flag telling whether it has a default (`param.default != param.empty`);
  - `run` is the body, applied to the keyword arguments bound from context;
  - `return_ann` is the return annotation when it is a string literal
    (`isinstance(return_annotation, str)`); other annotations never bind a
    name in the source, so they are modelled as `none`;
  - `doc` is `inspect.getdoc`, the cleaned docstring. -/
structure PyFunc where
  params : List (String × Bool)
  run : List (String × Value) → Except String PyResult
  return_ann : Option String
  doc : Option String

/-! ## TaskManager.execute_task (src/aflow/models/task_manager.py:179-304) -/

/-- A Tool node as stored in the graph (embedding omitted here; the
execution engine reads only `name` and `category`). -/
structure ToolRef where
  name : String
  category : String
  deriving Repr, DecidableEq

/-- A Task node with its ordered USES tool list. -/
structure TaskRec where
  name : String
  input_params : List String
  output_params : List String
  tools : List ToolRef
  deriving Repr, DecidableEq

/-- The task database: the Task nodes with their tool relationships. -/
structure TaskDB where
  tasks : List TaskRec
  deriving Repr

/-- The Cypher query
`MATCH (task:Task {name: $n})-[r:USES]->(tool:Tool) ... RETURN task, tools`
yields a row only when the task exists and has at least one USES edge. -/
def taskQuery (db : TaskDB) (task_name : String) : Option TaskRec :=
  match db.tasks.find? (fun t => t.name == task_name) with
  | none => none
  | some t => if t.tools.isEmpty then none else some t

/-- Structured counterparts of the exceptions raised by `execute_task`.
Each constructor records the data interpolated into the Python message. -/
inductive ExecError where
  | taskNotFound (task_name : String)
  | noTools (task_name : String)
  | missingInputs (names : List String)
  | missingOutputs (names : List String)
  | toolError (tool_name : String) (msg : String)
  deriving Repr, DecidableEq

/-- The dict returned by a successful `execute_task`. -/
structure TaskOutput where
  results : List (String × PyResult)
  outputs : Ctx
  context_variables : Ctx
  deriving Repr, DecidableEq

/-- Parameter binding loop of `execute_task` (lines 240-245): walk the
signature in order; a context hit binds the argument, a miss on a
parameter without default records it as missing.  Returns the bound
arguments and all missing required parameter names. -/
def bindParams (params : List (String × Bool)) (ctx : Ctx) :
    List (String × Value) × List String :=
  params.foldl
    (fun acc p =>
      match pyGet ctx p.1 with
      | some v => (acc.1 ++ [(p.1, v)], acc.2)
      | none => if p.2 then acc else (acc.1, acc.2 ++ [p.1]))
    ([], [])

/-- Docstring heuristic of `execute_task` (lines 270-282): find the first
line containing `Returns:`; when a following line exists and contains a
colon, the text before the colon (stripped) names the output variable;
in every other case the loop breaks or ends without binding. -/
def inferDocVar (doc : String) : Option String :=
  findReturnsVar (doc.splitOn "\n")
where
  findReturnsVar : List String → Option String
    | l1 :: l2 :: rest =>
      if strContains l1 "Returns:" then
        let return_desc := l2.trim
        if strContains return_desc ":" then
          some (((return_desc.splitOn ":").headD "").trim)
        else
          none
      else
        findReturnsVar (l2 :: rest)
    | _ => none

/-- Context merge after one tool call (lines 256-282): a dict result is
merged key by key; any other result is stored under the tool name, then
under the string return annotation when present, then under the variable
name inferred from the docstring when the heuristic matches. -/
def mergeResult (f : PyFunc) (tool_name : String) (r : PyResult) (ctx : Ctx) :
    Ctx :=
  match r with
  | .dict entries => pyUpdate ctx entries
  | .val v =>
    let ctx := pySet ctx tool_name v
    let ctx :=
      match f.return_ann with
      | some a => pySet ctx a v
      | none => ctx
    match f.doc with
    | some d =>
      match inferDocVar d with
      | some var_name => pySet ctx var_name v
      | none => ctx
    | none => ctx

/-- Tool loop of `execute_task` (lines 226-288).  `funcs` models
`get_tool_function`: dynamic resolution of the implementation by tool
name; a resolution failure raises inside the try block and is wrapped
exactly like any other exception. -/
def runTools (funcs : String → Option PyFunc) :
    List ToolRef → List (String × PyResult) → Ctx →
    Except ExecError (List (String × PyResult) × Ctx)
  | [], results, ctx => .ok (results, ctx)
  | tool :: rest, results, ctx =>
    match funcs tool.name with
    | none => .error (.toolError tool.name ("Tool '" ++ tool.name ++ "' not found in database"))
    | some f =>
      let bound := bindParams f.params ctx
      if bound.2 ≠ [] then
        .error (.toolError tool.name
          ("Missing required parameters for tool '" ++ tool.name ++ "': " ++
            joinComma bound.2))
      else
        match f.run bound.1 with
        | .error msg => .error (.toolError tool.name msg)
        | .ok r =>
          runTools funcs rest (pySet results tool.name r)
            (mergeResult f tool.name r ctx)

/-- `TaskManager.execute_task` (lines 179-304): resolve the task and its
ordered tools, validate the declared inputs against the context all at
once, run the tools in order, then validate and project the declared
outputs. -/
def execute_task (db : TaskDB) (funcs : String → Option PyFunc)
    (task_name : String) (context_variables : Ctx) :
    Except ExecError TaskOutput :=
  match taskQuery db task_name with
  | none => .error (.taskNotFound task_name)
  | some task =>
    if task.tools.isEmpty then .error (.noTools task_name)
    else
      let missing_inputs :=
        task.input_params.filter (fun p => !(pyHas context_variables p))
      if missing_inputs ≠ [] then .error (.missingInputs missing_inputs)
      else
        match runTools funcs task.tools [] context_variables with
        | .error e => .error e
        | .ok (results, ctx) =>
          let missing_outputs :=
            task.output_params.filter (fun p => !(pyHas ctx p))
          if missing_outputs ≠ [] then .error (.missingOutputs missing_outputs)
          else
            let outputs := task.output_params.filterMap
              (fun p => (pyGet ctx p).map (fun v => (p, v)))
            .ok ⟨results, outputs, ctx⟩

/-! ### Concrete tools for the C1 scenario -/

/-- `double(n)` returning `{n: n*2}`. -/
def doubleFunc : PyFunc where
  params := [("n", false)]
  run := fun args =>
    match pyGet args "n" with
    | some (.int k) => .ok (.dict [("n", .int (k * 2))])
    | _ => .error "TypeError"
  return_ann := none
  doc := none

/-- `stringify(n)` returning `{s: str(n)}`. -/
def stringifyFunc : PyFunc where
  params := [("n", false)]
  run := fun args =>
    match pyGet args "n" with
    | some (.int k) => .ok (.dict [("s", .str (toString k))])
    | _ => .error "TypeError"
  return_ann := none
  doc := none

/-- Tool resolution environment for the scenario. -/
def scenarioFuncs : String → Option PyFunc := fun nm =>
  if nm = "double" then some doubleFunc
  else if nm = "stringify" then some stringifyFunc
  else none

/-- The task `T` chaining `double` then `stringify`. -/
def scenarioDB : TaskDB where
  tasks := [⟨"T", ["n"], ["s"],
    [⟨"double", "math.tools"⟩, ⟨"stringify", "math.tools"⟩]⟩]

/-! ## WorkflowManager.execute_workflow
(src/aflow/models/workflow_manager.py:154-230)

The Cypher query
`MATCH (w:Workflow {name: $n})-[r:CONTAINS]->(task:Task)-[:USES]->(tool:Tool)
 RETURN task, tool, r.order as task_order ORDER BY r.order`
yields one row per (contained task, used tool) pair, ordered by the
CONTAINS order.  `execute_tool` then imports the module named
`aflow.tools.<category>.<toolName>` and calls the function named after the
tool with the whole context dict as keyword arguments. -/

/-- A Workflow node with its ordered CONTAINS task list; each task record
carries its own USES tool list. -/
structure WorkflowRec where
  name : String
  taskRefs : List TaskRec
  deriving Repr

/-- The workflow database. -/
structure WorkflowDB where
  workflows : List WorkflowRec
  deriving Repr

/-- The (task, tool) rows produced by the workflow query, in order. -/
def workflowRows (w : WorkflowRec) : List (TaskRec × ToolRef) :=
  (w.taskRefs.map (fun t => t.tools.map (fun tool => (t, tool)))).flatten

/-- Errors raised by `execute_workflow`; each constructor records the data
interpolated into the Python message. -/
inductive WfError where
  | wfNotFound (workflow_name : String)
  | taskError (task_name : String) (msg : String)
  deriving Repr, DecidableEq

/-- The dict returned by a successful `execute_workflow`. -/
structure WfOutput where
  results : List (String × PyResult)
  context_variables : Ctx
  deriving Repr, DecidableEq

/-- Python call semantics for `tool_function(**context_variables)`: a
TypeError is raised when some keyword is not a formal parameter, or when a
parameter without default receives no keyword; otherwise the body runs on
the arguments bound by name. -/
def callWithKwargs (f : PyFunc) (kwargs : Ctx) : Except String PyResult :=
  if kwargs.any (fun p => !(f.params.any (fun q => q.1 == p.1))) then
    .error "TypeError: unexpected keyword argument"
  else if f.params.any (fun q => !q.2 && !(pyHas kwargs q.1)) then
    .error "TypeError: missing required argument"
  else
    f.run (f.params.filterMap (fun q => (pyGet kwargs q.1).map (fun v => (q.1, v))))

/-- `WorkflowManager.execute_tool` (lines 154-173).  `resolve` models the
dynamic import of `aflow.tools.<category>.<toolName>` plus the getattr of
the tool name; a resolution failure raises ImportError or AttributeError,
and any exception from the call itself is wrapped with the tool name. -/
def wf_execute_tool (resolve : ToolRef → Option PyFunc) (tool : ToolRef)
    (context_variables : Ctx) : Except String PyResult :=
  match resolve tool with
  | none =>
    .error ("Tool module 'aflow.tools." ++ tool.category ++ "." ++ tool.name ++
      "' not found")
  | some f =>
    match callWithKwargs f context_variables with
    | .error e => .error ("Error executing tool '" ++ tool.name ++ "': " ++ e)
    | .ok r => .ok r

/-- Row loop of `execute_workflow` (lines 209-225): run each (task, tool)
row in order; record the raw result under the task name; merge dict
results into the context; wrap the first failure with the task name and
abort. -/
def runWfRows (resolve : ToolRef → Option PyFunc) :
    List (TaskRec × ToolRef) → List (String × PyResult) → Ctx →
    Except WfError (List (String × PyResult) × Ctx)
  | [], results, ctx => .ok (results, ctx)
  | (task, tool) :: rest, results, ctx =>
    match wf_execute_tool resolve tool ctx with
    | .error e => .error (.taskError task.name e)
    | .ok r =>
      let results := pySet results task.name r
      let ctx := match r with
        | .dict entries => pyUpdate ctx entries
        | .val _ => ctx
      runWfRows resolve rest results ctx

/-- `WorkflowManager.execute_workflow` (lines 175-230): fetch the ordered
(task, tool) rows; an absent workflow and a workflow with no rows are the
same failure; then run the rows. -/
def execute_workflow (db : WorkflowDB) (resolve : ToolRef → Option PyFunc)
    (workflow_name : String) (context_variables : Ctx) :
    Except WfError WfOutput :=
  let rows :=
    match db.workflows.find? (fun w => w.name == workflow_name) with
    | none => []
    | some w => workflowRows w
  if rows.isEmpty then .error (.wfNotFound workflow_name)
  else
    match runWfRows resolve rows [] context_variables with
    | .error e => .error e
    | .ok (results, ctx) => .ok ⟨results, ctx⟩

/-! ### Concrete workflow for the C3 counterexample: two tasks, the second
declaring an input name `y` that the first never produces. -/

/-- Task `T1`: runs `double`; declares input `n`, output `n`. -/
def wfTask1 : TaskRec := ⟨"T1", ["n"], ["n"], [⟨"double", "math.tools"⟩]⟩

/-- Task `T2`: runs `stringify`; declares input `y`, which no prior task
ever produces. -/
def wfTask2 : TaskRec := ⟨"T2", ["y"], ["s"], [⟨"stringify", "math.tools"⟩]⟩

/-- The two-task workflow `W`. -/
def wfDB : WorkflowDB where
  workflows := [⟨"W", [wfTask1, wfTask2]⟩]

/-- Resolution environment for the counterexample workflow. -/
def wfResolve : ToolRef → Option PyFunc := fun tool =>
  if tool.name = "double" then some doubleFunc
  else if tool.name = "stringify" then some stringifyFunc
  else none

/-- Re-declaration of the input and output parameter lists of every task of
a workflow database, used to state that `execute_workflow` never reads
them. -/
def reparamWfDB (f g : TaskRec → List String) (db : WorkflowDB) : WorkflowDB where
  workflows := db.workflows.map (fun w =>
    ⟨w.name, w.taskRefs.map (fun t => ⟨t.name, f t, g t, t.tools⟩)⟩)

/-! ## MerkleTree (src/aflow/models/merkle_tree.py)

`MerkleNode` is a dataclass with fields hash, path, children, is_file,
is_function, content_hash, function_name, function_doc; children is a
Python dict (insertion ordered, unique keys), modelled as an association
list. -/

inductive MNode where
  | mk (hash : String) (path : String) (children : List (String × MNode))
      ( is_file : Bool) ( is_function : Bool) (content_hash : Option String)
      (function_name : Option String) (function_doc : Option String) : MNode
  deriving Repr

def MNode.hash : MNode → String
  | .mk v _ _ _ _ _ _ _ => v

def MNode.path : MNode → String
  | .mk _ v _ _ _ _ _ _ => v

def MNode.children : MNode → List (String × MNode)
  | .mk _ _ v _ _ _ _ _ => v

def MNode.is_file : MNode → Bool
  | .mk _ _ _ v _ _ _ _ => v

def MNode.is_function : MNode → Bool
  | .mk _ _ _ _ v _ _ _ => v

def MNode.content_hash : MNode → Option String
  | .mk _ _ _ _ _ v _ _ => v

def MNode.function_name : MNode → Option String
  | .mk _ _ _ _ _ _ v _ => v

def MNode.function_doc : MNode → Option String
  | .mk _ _ _ _ _ _ _ v => v

theorem sizeOf_snd_lt_of_mem {pr : String × MNode} {cs : List (String × MNode)}
    (hpr : pr ∈ cs) : sizeOf pr.2 < sizeOf cs := by
  have h1 := List.sizeOf_lt_of_mem hpr
  obtain ⟨a, b⟩ := pr
  simp only [Prod.mk.sizeOf_spec] at h1
  show sizeOf b < sizeOf cs
  omega

theorem sizeOf_children_lt (n : MNode) : sizeOf n.children < sizeOf n := by
  cases n with
  | mk h p cs f fn ch fname fdoc =>
    simp only [MNode.children, MNode.mk.sizeOf_spec]; omega

/-- Nested induction principle for `MNode`: the motive may be assumed for
every child. -/
theorem MNode.induct {motive : MNode → Prop}
    (step : ∀ hash path children is_file is_function content_hash
      function_name function_doc,
      (∀ pr ∈ children, motive pr.2) →
      motive (.mk hash path children is_file is_function content_hash
        function_name function_doc)) :
    ∀ n, motive n
  | .mk hs p cs f fn ch fname fdoc =>
    step hs p cs f fn ch fname fdoc
      (fun pr hpr => MNode.induct step pr.2)
termination_by n => sizeOf n
decreasing_by
  have h1 := sizeOf_snd_lt_of_mem hpr
  simp only [MNode.mk.sizeOf_spec]
  omega

/-- Directory hash of `_build_tree` (lines 161-163): the digest of the
concatenation of the sorted child hashes.  `digest` abstracts
`hashlib.sha256(...).hexdigest()`; `sorted` is Pythons string sort. -/
def dirHash (digest : String → String) (child_hashes : List String) : String :=
  digest (String.join (child_hashes.insertionSort (fun a b => a ≤ b)))

mutual

/-- `_get_all_files` (lines 320-335): file nodes stop the descent; any
other node contributes its childrens files. -/
def get_all_files : MNode → List MNode
  | n@(.mk _ _ cs _ _ _ _ _) =>
    if n.is_file then [n] else gafChildren cs

def gafChildren : List (String × MNode) → List MNode
  | [] => []
  | (_, c) :: rest => get_all_files c ++ gafChildren rest

end

/-- Specification-level description of the paths `_get_all_files`
collects: the file nodes reached from the root without descending into a
file node. -/
inductive FileLeaf : MNode → String → Prop where
  | file {n : MNode} : n.is_file = true → FileLeaf n n.path
  | child {n c : MNode} {nm p : String} : n.is_file = false →
      (nm, c) ∈ n.children → FileLeaf c p → FileLeaf n p

/-- One diff result: the added, modified and removed Python sets. -/
structure ChangeAcc where
  added : Finset String
  modified : Finset String
  removed : Finset String
  deriving DecidableEq

def emptyAcc : ChangeAcc := ⟨∅, ∅, ∅⟩

def mergeAcc (a b : ChangeAcc) : ChangeAcc :=
  ⟨a.added ∪ b.added, a.modified ∪ b.modified, a.removed ∪ b.removed⟩

/-- `node1.path.split("::")[0]`: the owning file of a function node. -/
def parentPath (p : String) : String := (p.splitOn "::").headD ""

mutual

/-- `_compare_nodes(node1, None, ...)` (lines 213-223): a file is added, a
function marks its owning file modified, anything else recurses over its
children. -/
def addedOnly : MNode → ChangeAcc
  | n@(.mk _ _ cs _ _ _ _ _) =>
    if n.is_file then ⟨{n.path}, ∅, ∅⟩
    else if n.is_function then ⟨∅, {parentPath n.path}, ∅⟩
    else addedOnlyChildren cs

def addedOnlyChildren : List (String × MNode) → ChangeAcc
  | [] => emptyAcc
  | (_, c) :: rest => mergeAcc (addedOnly c) (addedOnlyChildren rest)

end

mutual

/-- `_compare_nodes(None, node2, ...)` (lines 225-234), symmetric to
`addedOnly` with removed in place of added. -/
def removedOnly : MNode → ChangeAcc
  | n@(.mk _ _ cs _ _ _ _ _) =>
    if n.is_file then ⟨∅, ∅, {n.path}⟩
    else if n.is_function then ⟨∅, {parentPath n.path}, ∅⟩
    else removedOnlyChildren cs

def removedOnlyChildren : List (String × MNode) → ChangeAcc
  | [] => emptyAcc
  | (_, c) :: rest => mergeAcc (removedOnly c) (removedOnlyChildren rest)

end

/-- The function children of a file node. -/
def funcChildren (n : MNode) : List (String × MNode) :=
  n.children.filter (fun pr => pr.2.is_function)

/-- The `for func_name in all_funcs` loop of `_compare_function_nodes`:
`p1`, `p2` are the two file paths marked modified for an added or changed
function (current file) and a removed function (previous file). -/
def cfnLoop (funcs1 funcs2 : List (String × MNode)) (p1 p2 : String) :
    List String → Finset String → Finset String
  | [], acc => acc
  | nm :: rest, acc =>
    cfnLoop funcs1 funcs2 p1 p2 rest
      (match pyGet funcs1 nm, pyGet funcs2 nm with
        | some _, none => acc ∪ {p1}
        | none, some _ => acc ∪ {p2}
        | some f1, some f2 =>
          if f1.hash ≠ f2.hash then acc ∪ {p1} else acc
        | none, none => acc)

/-- `_compare_function_nodes` (lines 252-287): for every function name of
either file, a function present only in the current file, only in the
previous file, or present in both with different hashes marks the
corresponding file path modified.  (The `changed_functions` side table the
method also fills is consumed only by `scan_tools` and is not needed by
any claim, so it is not modelled here.) -/
def compareFunctionNodes (file_node1 file_node2 : MNode) : Finset String :=
  cfnLoop (funcChildren file_node1) (funcChildren file_node2)
    file_node1.path file_node2.path
    (((funcChildren file_node1).map Prod.fst ++
      (funcChildren file_node2).map Prod.fst).dedup) ∅

theorem sizeOf_pyGet_lt {cs : List (String × MNode)} {nm : String} {c : MNode}
    (h : pyGet cs nm = some c) : sizeOf c < sizeOf cs := by
  unfold pyGet at h
  cases hf : cs.find? (fun pr => pr.1 == nm) with
  | none => rw [hf] at h; simp at h
  | some pr =>
    rw [hf] at h
    simp at h
    cases h
    exact sizeOf_snd_lt_of_mem (List.mem_of_find?_eq_some hf)

mutual

/-- `_compare_nodes` with both nodes present (lines 237-250): two file
nodes compare by hash, and source files additionally compare their
function children; any other pair recurses over the union of child
names. -/
def compareNodes (n1 n2 : MNode) : ChangeAcc :=
  if n1.is_file && n2.is_file then
    let m0 : Finset String := if n1.hash ≠ n2.hash then {n1.path} else ∅
    let m1 : Finset String :=
      if pyEndsWith n1.path ".py" then compareFunctionNodes n1 n2 else ∅
    ⟨∅, m0 ∪ m1, ∅⟩
  else
    compareChildren n1.children n2.children
      ((n1.children.map Prod.fst ++ n2.children.map Prod.fst).dedup)
termination_by (sizeOf n1 + sizeOf n2, 0)
decreasing_by
  have g1 := sizeOf_children_lt n1
  have g2 := sizeOf_children_lt n2
  decreasing_tactic

/-- The `for child_name in all_children` loop of `_compare_nodes`
(lines 246-250). -/
def compareChildren (cs1 cs2 : List (String × MNode)) :
    List String → ChangeAcc
  | [] => emptyAcc
  | nm :: rest =>
    let head : ChangeAcc :=
      match h1 : pyGet cs1 nm, h2 : pyGet cs2 nm with
      | some c1, some c2 => compareNodes c1 c2
      | some c1, none => addedOnly c1
      | none, some c2 => removedOnly c2
      | none, none => emptyAcc
    mergeAcc head (compareChildren cs1 cs2 rest)
termination_by names => (sizeOf cs1 + sizeOf cs2, names.length + 1)
decreasing_by
  all_goals first
  | (have g1 := sizeOf_pyGet_lt h1
     have g2 := sizeOf_pyGet_lt h2
     decreasing_tactic)
  | decreasing_tactic

end

/-- `get_changes` (lines 173-197): with no previous snapshot every file
leaf is added; with a previous snapshot the compared sets are filtered to
source files. -/
def get_changes (root : MNode) (previous_root : Option MNode) : ChangeAcc :=
  match previous_root with
  | none => ⟨((get_all_files root).map MNode.path).toFinset, ∅, ∅⟩
  | some prev =>
    let acc := compareNodes root prev
    ⟨acc.added.filter (fun p => pyEndsWith p ".py" = true),
     acc.modified.filter (fun p => pyEndsWith p ".py" = true),
     acc.removed.filter (fun p => pyEndsWith p ".py" = true)⟩

/-! ### Snapshot state (get_state / load_state, lines 337-381)

`node_to_dict` serializes every field; `load_state` reads the three
function fields with a default through `.get`, but `get_state` always
emits them, so the state dict carries all eight fields. -/

inductive NodeState where
  | mk (hash : String) (path : String) (children : List (String × NodeState))
      ( is_file : Bool) (content_hash : Option String) ( is_function : Bool)
      (function_name : Option String) (function_doc : Option String) : NodeState
  deriving Repr

mutual

/-- `node_to_dict` inside `get_state` (lines 343-353). -/
def node_to_dict : MNode → NodeState
  | .mk hs p cs f fn ch fname fdoc =>
    .mk hs p (childrenToDict cs) f ch fn fname fdoc

def childrenToDict : List (String × MNode) → List (String × NodeState)
  | [] => []
  | (nm, c) :: rest => (nm, node_to_dict c) :: childrenToDict rest

end

mutual

/-- `dict_to_node` inside `load_state` (lines 367-377). -/
def dict_to_node : NodeState → MNode
  | .mk hs p cs f ch fn fname fdoc =>
    .mk hs p (childrenToNode cs) f fn ch fname fdoc

def childrenToNode : List (String × NodeState) → List (String × MNode)
  | [] => []
  | (nm, c) :: rest => (nm, dict_to_node c) :: childrenToNode rest

end

/-! ## Function extraction (MerkleTree._extract_functions, lines 73-120)

A small model of the Python statement tree `ast.parse` returns.  Function
definitions, class definitions and other compound statements all carry a
body of nested statements; `ast.walk` reaches them all. -/

inductive PyStmt where
  /-- `ast.FunctionDef`: name, exact source span (`ast.get_source_segment`),
  docstring (`ast.get_docstring`), nested body statements. -/
  | funcDef (name : String) (src : String) (doc : Option String)
      (body : List PyStmt)
  /-- `ast.ClassDef` with its body (methods are funcDef children here). -/
  | classDef (name : String) (body : List PyStmt)
  /-- Any other statement with a nested body (if, for, with, try, ...). -/
  | blockStmt (body : List PyStmt)
  deriving Repr

def PyStmt.body : PyStmt → List PyStmt
  | .funcDef _ _ _ b => b
  | .classDef _ b => b
  | .blockStmt b => b

mutual

def sizeS : PyStmt → Nat
  | .funcDef _ _ _ b => 1 + sizeL b
  | .classDef _ b => 1 + sizeL b
  | .blockStmt b => 1 + sizeL b

def sizeL : List PyStmt → Nat
  | [] => 0
  | s :: rest => sizeS s + sizeL rest

end

theorem sizeL_append (l1 l2 : List PyStmt) :
    sizeL (l1 ++ l2) = sizeL l1 + sizeL l2 := by
  induction l1 with
  | nil => simp [sizeL]
  | cons s rest ih => simp [sizeL, ih]; omega

theorem sizeS_pos (s : PyStmt) : 1 ≤ sizeS s := by
  cases s <;> simp [sizeS] <;> omega

theorem sizeL_body_lt (s : PyStmt) : sizeL s.body < sizeS s := by
  cases s <;> simp [PyStmt.body, sizeS] <;> omega

/-- `ast.walk`: breadth-first traversal yielding every node of the tree,
starting from the given queue of root statements. -/
def walkBFS : List PyStmt → List PyStmt
  | [] => []
  | s :: queue => s :: walkBFS (queue ++ s.body)
termination_by queue => sizeL queue
decreasing_by
  rw [sizeL_append]
  have h1 := sizeL_body_lt s
  simp [sizeL]
  omega

/-- `_extract_functions` over a parsed module body: every `ast.FunctionDef`
reached by `ast.walk` whose name does not start with an underscore and
whose source segment is non-falsy becomes a function node.  `digest`
abstracts the SHA-256 hex digest of `_calculate_function_hash`. -/
def extract_functions (digest : String → String) (file_path : String)
    (moduleBody : List PyStmt) : List MNode :=
  (walkBFS moduleBody).filterMap (fun s =>
    match s with
    | .funcDef name src doc _ =>
      if pyStartsWith name "_" then none
      else if src = "" then none
      else
        some (.mk (digest src) (file_path ++ "::" ++ name) [] false true
          (some (digest src)) (some name) doc)
    | _ => none)

/-- A statement occurs somewhere in a statement list, at any nesting
depth. -/
inductive StmtIn : PyStmt → List PyStmt → Prop where
  | here {s : PyStmt} {l : List PyStmt} : s ∈ l → StmtIn s l
  | nested {s t : PyStmt} {l : List PyStmt} :
      t ∈ l → StmtIn s t.body → StmtIn s l

/-! ## ToolManager against the graph store
(src/aflow/models/tool_manager.py)

The Neo4j store is modelled by its node and relationship content; the
Cypher fragments the manager issues are translated clause by clause.  The
embedding service is abstracted as a function `embed` from the query text
to the stored vector. -/

/-- A Tool node of the graph store. -/
structure ToolNode where
  name : String
  description : String
  category : String
  embedding : String
  deriving Repr, DecidableEq

/-- The graph store: Tool nodes plus the `(task)-[:USES]->(tool)`
relationships, as (task name, tool name) pairs. -/
structure GraphStore where
  tools : List ToolNode
  uses : List (String × String)
  deriving Repr, DecidableEq

/-- `ToolManager.create_tool` (lines 35-84).  The first statement unpacks
`category.split('.')` into two names (raising ValueError unless the split
has exactly two parts), before any session is opened; an existing record
is returned unchanged; otherwise MERGE+SET stores a fresh record whose
embedding comes from `embed(name + " " + description)`.  (The
`os.makedirs` side effect touches only the filesystem and is not
modelled.) -/
def create_tool (embed : String → String) (st : GraphStore)
    (name description category : String) :
    Except String (ToolNode × GraphStore) :=
  match pySplit '.' category with
  | [_category_name, _tool_file] =>
    match st.tools.find? (fun t => t.name == name) with
    | some t => .ok (t, st)
    | none =>
      let t : ToolNode :=
        ⟨name, description, category, embed (name ++ " " ++ description)⟩
      .ok (t, ⟨st.tools ++ [t], st.uses⟩)
  | _ =>
    .error ("ValueError: category '" ++ category ++
      "' does not split into exactly two values")

/-- `ToolManager.update_tool` (lines 86-125): a missing record raises
ValueError; otherwise the embedding is always rewritten from
`embed(name + " " + (description or ""))` and description and category are
overwritten only when non-null. -/
def update_tool (embed : String → String) (st : GraphStore) (name : String)
    (description category : Option String) :
    Except String (ToolNode × GraphStore) :=
  match st.tools.find? (fun t => t.name == name) with
  | none =>
    .error ("Tool '" ++ name ++
      "' does not exist. Use create_tool to create new tools.")
  | some t =>
    let t2 : ToolNode :=
      ⟨t.name, description.getD t.description, category.getD t.category,
        embed (name ++ " " ++ description.getD "")⟩
    .ok (t2, ⟨st.tools.map (fun u => if u.name == name then t2 else u), st.uses⟩)

/-- `ToolManager._remove_tool` (lines 304-317) issues
`MATCH (tool:Tool {name: $name}) DELETE tool`.  Cypher DELETE (as opposed
to DETACH DELETE) fails and rolls the transaction back when the matched
node still has relationships, so a Tool referenced by a Task survives
unchanged; an unmatched name is a no-op. -/
def remove_tool (st : GraphStore) (tool_name : String) :
    Except String GraphStore :=
  if (st.tools.find? (fun t => t.name == tool_name)).isNone then .ok st
  else if st.uses.any (fun r => r.2 == tool_name) then
    .error "Neo4j ConstraintValidationFailed: cannot delete node, because it still has relationships"
  else
    .ok ⟨st.tools.filter (fun t => !(t.name == tool_name)), st.uses⟩

/-! # Claims -/

theorem taskQuery_tools_ne {db : TaskDB} {nm : String} {task : TaskRec}
    (h : taskQuery db nm = some task) : task.tools.isEmpty = false := by
  unfold taskQuery at h
  cases hf : db.tasks.find? (fun t => t.name == nm) with
  | none => rw [hf] at h; cases h
  | some t =>
    rw [hf] at h
    dsimp only at h
    by_cases he : t.tools.isEmpty = true
    · rw [if_pos he] at h; cases h
    · rw [if_neg he] at h
      cases h
      simpa using he

/-- C1: for tools double(n) returning (n: n*2) and stringify(n) returning
(s: str(n)), the task T chaining them with input_params = [n] and
output_params = [s] executes on (n: 3) to outputs (s: "6") and final
context (n: 6, s: "6"): parameters are bound by name from the context,
each dict result is merged before the next tool, and outputs is the
context restricted to the declared output names. -/
theorem C1_execute_task_scenario :
    execute_task scenarioDB scenarioFuncs "T" [("n", .int 3)] =
      .ok ⟨[("double", .dict [("n", .int 6)]),
            ("stringify", .dict [("s", .str "6")])],
        [("s", .str "6")], [("n", .int 6), ("s", .str "6")]⟩ := by
  rfl

/-- C2: whenever a resolvable task declares an input name missing from the
supplied context, execute_task fails with an error listing every missing
name, and the result is the same for every tool-resolution environment,
so no tool implementation is ever invoked before the failure. -/
theorem C2_missing_inputs_fail_fast (db : TaskDB)
    (funcs : String → Option PyFunc) (task_name : String) (ctx : Ctx)
    (task : TaskRec) (hq : taskQuery db task_name = some task)
    (hm : task.input_params.filter (fun p => !(pyHas ctx p)) ≠ []) :
    execute_task db funcs task_name ctx =
      .error (.missingInputs
        (task.input_params.filter (fun p => !(pyHas ctx p)))) := by
  have hne := taskQuery_tools_ne hq
  unfold execute_task
  rw [hq]
  simp [hne, hm]

def c2Task : TaskRec := ⟨"Wtask", ["x"], [], [⟨"noop", "a.b"⟩]⟩

def c2DB : TaskDB := ⟨[c2Task]⟩

/-- Witness for C2 at a concrete task with input_params = [x] and an empty
context: the call fails naming x, with no tool function available at
all. -/
theorem C2_missing_inputs_witness :
    execute_task c2DB (fun _ => none) "Wtask" [] =
      .error (.missingInputs ["x"]) :=
  C2_missing_inputs_fail_fast c2DB (fun _ => none) "Wtask" [] c2Task
    (by rfl) (by decide)

/-- C10: create_tool raises while unpacking `category.split('.')` exactly
when the split does not have two parts (that is, the category does not
contain exactly one dot), before any record is looked up or written, and
in particular the documented default category `uncategorized` always
raises, independently of the store. -/
theorem C10_create_tool_category_guard (embed : String → String)
    (st : GraphStore) (name description category : String) :
    ((∃ msg, create_tool embed st name description category = .error msg) ↔
      (pySplit '.' category).length ≠ 2) ∧
    (∃ msg, ∀ st2 : GraphStore,
      create_tool embed st2 name description "uncategorized" = .error msg) := by
  have main : ∀ (st3 : GraphStore) (cat : String),
      (∃ msg, create_tool embed st3 name description cat = .error msg) ↔
        (pySplit '.' cat).length ≠ 2 := by
    intro st3 cat
    unfold create_tool
    cases hsp : pySplit '.' cat with
    | nil => simp
    | cons a l1 =>
      cases l1 with
      | nil => simp
      | cons b l2 =>
        cases l2 with
        | nil =>
          cases hf : st3.tools.find? (fun t => t.name == name) <;> simp [hf]
        | cons c l3 => simp
  refine ⟨main st category, ?_⟩
  refine ⟨"ValueError: category 'uncategorized' does not split into exactly two values", ?_⟩
  intro st2
  rfl

/-- Witness for C10: with the default category the split has one part and
create_tool errors on the empty store. -/
theorem C10_category_guard_witness :
    (∃ msg, create_tool (fun s => s) ⟨[], []⟩ "t" "d" "uncategorized" =
      .error msg) ∧
    (pySplit '.' "uncategorized").length ≠ 2 :=
  ⟨(C10_create_tool_category_guard (fun s => s) ⟨[], []⟩ "t" "d"
      "uncategorized").1.mpr (by decide), by decide⟩

/-- C5: with a well-formed category and a name absent from the store, the
first create_tool stores a record, a second create_tool with a different
description returns the very same record and leaves the store untouched,
and update_tool on a name absent from the store fails instead of
creating. -/
theorem C5_create_update_idempotent (embed : String → String)
    (st : GraphStore) (name d1 d2 a b category : String)
    (hc : pySplit '.' category = [a, b])
    (hn : st.tools.find? (fun t => t.name == name) = none) :
    (∃ t st1,
      create_tool embed st name d1 category = .ok (t, st1) ∧
      create_tool embed st1 name d2 category = .ok (t, st1)) ∧
    (∀ od oc, update_tool embed st name od oc =
      .error ("Tool '" ++ name ++
        "' does not exist. Use create_tool to create new tools.")) := by
  constructor
  · refine ⟨⟨name, d1, category, embed (name ++ " " ++ d1)⟩,
      ⟨st.tools ++ [⟨name, d1, category, embed (name ++ " " ++ d1)⟩],
        st.uses⟩, ?_, ?_⟩
    · unfold create_tool
      rw [hc, hn]
    · unfold create_tool
      rw [hc]
      have hfind :
          (st.tools ++
            [(⟨name, d1, category, embed (name ++ " " ++ d1)⟩ : ToolNode)]).find?
            (fun t => t.name == name) =
          some ⟨name, d1, category, embed (name ++ " " ++ d1)⟩ := by
        rw [List.find?_append, hn]
        simp
      rw [hfind]
  · intro od oc
    unfold update_tool
    rw [hn]

/-- Witness for C5 on the empty store with category x.y. -/
theorem C5_idempotent_witness :
    (∃ t st1,
      create_tool (fun s => s) ⟨[], []⟩ "f" "d1" "x.y" = .ok (t, st1) ∧
      create_tool (fun s => s) st1 "f" "d2" "x.y" = .ok (t, st1)) ∧
    (∀ od oc, update_tool (fun s => s) ⟨[], []⟩ "f" od oc =
      .error ("Tool '" ++ "f" ++
        "' does not exist. Use create_tool to create new tools.")) :=
  C5_create_update_idempotent (fun s => s) ⟨[], []⟩ "f" "d1" "d2" "x" "y"
    "x.y" (by decide) (by rfl)

/-- C6: deleting a Tool that some Task still references fails with the
stores constraint error (the plain Cypher DELETE is rejected, not
cascaded), and because the transaction rolls back, the record survives:
the operation returns no updated store at all. -/
theorem C6_remove_tool_in_use (st : GraphStore) (tool_name task_name : String)
    (htool : (st.tools.find? (fun t => t.name == tool_name)).isSome = true)
    (huse : (task_name, tool_name) ∈ st.uses) :
    remove_tool st tool_name =
      .error "Neo4j ConstraintValidationFailed: cannot delete node, because it still has relationships" := by
  unfold remove_tool
  have h1 : (st.tools.find? (fun t => t.name == tool_name)).isNone = false := by
    cases hf : st.tools.find? (fun t => t.name == tool_name) with
    | none => rw [hf] at htool; cases htool
    | some t => rfl
  have h2 : st.uses.any (fun r => r.2 == tool_name) = true := by
    apply List.any_eq_true.mpr
    exact ⟨(task_name, tool_name), huse, by simp⟩
  simp [h1, h2]

/-- Witness for C6: a store with one tool f referenced by task1. -/
theorem C6_remove_tool_witness :
    remove_tool ⟨[⟨"f", "d", "a.b", "e"⟩], [("task1", "f")]⟩ "f" =
      .error "Neo4j ConstraintValidationFailed: cannot delete node, because it still has relationships" :=
  C6_remove_tool_in_use ⟨[⟨"f", "d", "a.b", "e"⟩], [("task1", "f")]⟩ "f"
    "task1" (by decide) (by decide)

/-- C7: the directory hash of _build_tree is a pure function of the child
hashes, invariant under any reordering of the directory entries, because
the child hashes are sorted before being concatenated and digested. -/
theorem C7_dirHash_order_invariant (digest : String → String)
    (hashes1 hashes2 : List String) (hperm : hashes1.Perm hashes2) :
    dirHash digest hashes1 = dirHash digest hashes2 := by
  unfold dirHash
  have hsorted :
      hashes1.insertionSort (fun x y => x ≤ y) =
        hashes2.insertionSort (fun x y => x ≤ y) := by
    apply @List.eq_of_perm_of_sorted String (fun x y : String => x ≤ y)
    · exact (List.perm_insertionSort _ hashes1).trans
        (hperm.trans (List.perm_insertionSort _ hashes2).symm)
    · exact List.sorted_insertionSort _ hashes1
    · exact List.sorted_insertionSort _ hashes2
  rw [hsorted]

/-- Witness for C7 on a two-element reordering. -/
theorem C7_dirHash_witness :
    dirHash (fun s => s) ["b", "a"] = dirHash (fun s => s) ["a", "b"] :=
  C7_dirHash_order_invariant (fun s => s) ["b", "a"] ["a", "b"] (by decide)

/-- C3 counterexample: workflow W contains T1 (tool double, outputs [n])
followed by T2, which declares input_params = [y] although no prior task
ever produces y.  The claim predicts a MissingInput failure at execution
time; instead execute_workflow succeeds, because it never reads any tasks
input_params or output_params: it passes the whole context to each tool
as keyword arguments.  Run on context (n: 3) it returns ok with both
steps recorded. -/
theorem C3_counterexample :
    execute_workflow wfDB wfResolve "W" [("n", .int 3)] =
      .ok ⟨[("T1", .dict [("n", .int 6)]), ("T2", .dict [("s", .str "6")])],
        [("n", .int 6), ("s", .str "6")]⟩ := by
  rfl

theorem runWfRows_reparam (resolve : ToolRef → Option PyFunc)
    (f g : TaskRec → List String) :
    ∀ (rows : List (TaskRec × ToolRef)) (results : List (String × PyResult))
      (ctx : Ctx),
      runWfRows resolve
        (rows.map (fun r => (⟨r.1.name, f r.1, g r.1, r.1.tools⟩, r.2)))
        results ctx =
      runWfRows resolve rows results ctx := by
  intro rows
  induction rows with
  | nil => intro results ctx; rfl
  | cons row rest ih =>
    intro results ctx
    obtain ⟨task, tool⟩ := row
    simp only [List.map_cons, runWfRows]
    cases he : wf_execute_tool resolve tool ctx with
    | error e => rfl
    | ok r => exact ih _ _

/-- C3 amended: execute_workflow resolves the workflows ordered
(task, tool) rows and invokes each tool with the entire context as
keyword arguments; it performs no input or output parameter validation at
all — re-declaring every tasks input_params and output_params arbitrarily
never changes the result — and the first failing step aborts the whole
workflow with the error wrapped as a task-level error carrying the task
name, rather than propagated unchanged. -/
theorem C3_workflow_ignores_task_params (db : WorkflowDB)
    (resolve : ToolRef → Option PyFunc) (workflow_name : String) (ctx : Ctx)
    (f g : TaskRec → List String) :
    (execute_workflow (reparamWfDB f g db) resolve workflow_name ctx =
      execute_workflow db resolve workflow_name ctx) ∧
    (∀ (task : TaskRec) (tool : ToolRef) (rest : List (TaskRec × ToolRef))
      (results : List (String × PyResult)) (ctx2 : Ctx) (e : String),
      wf_execute_tool resolve tool ctx2 = .error e →
      runWfRows resolve ((task, tool) :: rest) results ctx2 =
        .error (.taskError task.name e)) := by
  constructor
  · unfold execute_workflow reparamWfDB
    rw [List.find?_map]
    have hp : ((fun w : WorkflowRec => w.name == workflow_name) ∘
        (fun w : WorkflowRec =>
          (⟨w.name, w.taskRefs.map
            (fun t => ⟨t.name, f t, g t, t.tools⟩)⟩ : WorkflowRec))) =
        (fun w : WorkflowRec => w.name == workflow_name) := rfl
    rw [hp]
    cases hw : db.workflows.find? (fun w => w.name == workflow_name) with
    | none => rfl
    | some w =>
      dsimp only [Option.map]
      have hrows : workflowRows
          (⟨w.name, w.taskRefs.map (fun t => ⟨t.name, f t, g t, t.tools⟩)⟩ :
            WorkflowRec) =
          (workflowRows w).map
            (fun r => (⟨r.1.name, f r.1, g r.1, r.1.tools⟩, r.2)) := by
        unfold workflowRows
        rw [List.map_flatten]
        simp only [List.map_map]
        apply congrArg List.flatten
        apply List.map_congr_left
        intro t ht
        simp only [Function.comp]
        rw [List.map_map]
        rfl
      rw [hrows]
      cases hr : workflowRows w with
      | nil => rfl
      | cons row rest =>
        simp only [List.map_cons, List.isEmpty_cons]
        have hrun := runWfRows_reparam resolve f g (row :: rest) [] ctx
        simp only [List.map_cons] at hrun
        rw [hrun]
  · intro task tool rest results ctx2 e he
    simp only [runWfRows, he]

/-- Witness for C3: re-declaring the two tasks parameter lists leaves the
result of the counterexample workflow unchanged, and a failing first step
(an unresolvable tool) aborts with the task-level wrapped error. -/
theorem C3_workflow_params_witness :
    (execute_workflow (reparamWfDB (fun _ => ["q"]) (fun _ => []) wfDB)
        wfResolve "W" [("n", .int 3)] =
      execute_workflow wfDB wfResolve "W" [("n", .int 3)]) ∧
    runWfRows wfResolve [(wfTask1, ⟨"missing", "m"⟩)] [] [] =
      .error (.taskError "T1"
        "Tool module 'aflow.tools.m.missing' not found") :=
  ⟨(C3_workflow_ignores_task_params wfDB wfResolve "W" [("n", .int 3)]
      (fun _ => ["q"]) (fun _ => [])).1,
    (C3_workflow_ignores_task_params wfDB wfResolve "W" [("n", .int 3)]
      (fun _ => ["q"]) (fun _ => [])).2 wfTask1 ⟨"missing", "m"⟩ [] [] []
      "Tool module 'aflow.tools.m.missing' not found" (by rfl)⟩

def c4File : MNode := .mk "h1" "r/data.txt" [] true false (some "h1") none none

def c4Root : MNode := .mk "h0" "r" [("data.txt", c4File)] false false none none none

/-- C4 counterexample: a first-run diff (previous snapshot absent) over a
tree whose only file is the non-source r/data.txt surfaces that path in
the added set, although it does not carry the tracked source extension:
the extension filter of get_changes is applied only on the path that has
a previous snapshot, contradicting the claim that only tracked source
files are classified and surfaced. -/
theorem C4_counterexample :
    get_changes c4Root none = ⟨{"r/data.txt"}, ∅, ∅⟩ ∧
    pyEndsWith "r/data.txt" ".py" = false :=
  ⟨by decide, by decide⟩

theorem mem_gafChildren (p : String) :
    ∀ cs : List (String × MNode),
      (p ∈ (gafChildren cs).map MNode.path ↔
        ∃ pr ∈ cs, p ∈ (get_all_files pr.2).map MNode.path) := by
  intro cs
  induction cs with
  | nil => simp [gafChildren]
  | cons pr rest ih =>
    obtain ⟨nm, c⟩ := pr
    simp only [gafChildren, List.map_append, List.mem_append, ih,
      List.mem_cons]
    constructor
    · rintro (h | ⟨q, hq, hmem⟩)
      · exact ⟨(nm, c), Or.inl rfl, h⟩
      · exact ⟨q, Or.inr hq, hmem⟩
    · rintro ⟨q, hq | hq, hmem⟩
      · subst hq; exact Or.inl hmem
      · exact Or.inr ⟨q, hq, hmem⟩

theorem mem_get_all_files :
    ∀ (n : MNode) (p : String),
      p ∈ (get_all_files n).map MNode.path ↔ FileLeaf n p := by
  intro n
  induction n using MNode.induct with
  | step hs pth cs f fn ch fnm fd ih =>
    intro p
    show p ∈ (get_all_files (.mk hs pth cs f fn ch fnm fd)).map MNode.path ↔ _
    rw [get_all_files]
    cases hf : f with
    | true =>
      simp only [MNode.is_file, if_pos]
      constructor
      · intro hmem
        simp only [List.map_cons, List.map_nil, List.mem_singleton] at hmem
        subst hmem
        exact FileLeaf.file rfl
      · intro hfl
        cases hfl with
        | file h => simp [MNode.path]
        | child h hm hc => simp [MNode.is_file] at h
    | false =>
      simp only [MNode.is_file, Bool.false_eq_true, if_false]
      rw [mem_gafChildren]
      constructor
      · rintro ⟨pr, hpr, hmem⟩
        exact FileLeaf.child rfl
          (by simpa [MNode.children] using hpr) ((ih pr hpr p).mp hmem)
      · intro hfl
        cases hfl with
        | file h => simp [MNode.is_file] at h
        | child h hm hc =>
          rename_i c nm
          simp only [MNode.children] at hm
          exact ⟨(nm, c), hm, (ih (nm, c) hm p).mpr hc⟩

def c9Body : List PyStmt :=
  [.classDef "C" [.funcDef "method" "def method(self): pass" none []]]

/-- C9 counterexample: a module whose only statement is a class C with one
method extracts exactly that method as a Function node, although it is
not a top-level function definition: `ast.walk` visits every node of the
tree, so class methods and nested functions are extracted too,
contradicting the claim that only top-level function definitions become
Function children.  (Under the claim this extraction would be empty.) -/
theorem C9_counterexample :
    (extract_functions (fun s => s) "f.py" c9Body).map MNode.function_name =
      [some "method"] := by
  simp only [extract_functions, c9Body, walkBFS, PyStmt.body,
    List.nil_append, List.append_nil]
  decide

theorem StmtIn_append {x : PyStmt} {l1 l2 : List PyStmt} :
    StmtIn x (l1 ++ l2) ↔ StmtIn x l1 ∨ StmtIn x l2 := by
  constructor
  · intro h
    cases h with
    | here hm =>
      rcases List.mem_append.mp hm with h | h
      · exact Or.inl (.here h)
      · exact Or.inr (.here h)
    | nested hm hb =>
      rcases List.mem_append.mp hm with h | h
      · exact Or.inl (.nested h hb)
      · exact Or.inr (.nested h hb)
  · rintro (h | h)
    · cases h with
      | here hm => exact .here (List.mem_append.mpr (Or.inl hm))
      | nested hm hb => exact .nested (List.mem_append.mpr (Or.inl hm)) hb
    · cases h with
      | here hm => exact .here (List.mem_append.mpr (Or.inr hm))
      | nested hm hb => exact .nested (List.mem_append.mpr (Or.inr hm)) hb

theorem StmtIn_cons {x s : PyStmt} {queue : List PyStmt} :
    StmtIn x (s :: queue) ↔ x = s ∨ StmtIn x s.body ∨ StmtIn x queue := by
  constructor
  · intro h
    cases h with
    | here hm =>
      rcases List.mem_cons.mp hm with h | h
      · exact Or.inl h
      · exact Or.inr (Or.inr (.here h))
    | nested hm hb =>
      rcases List.mem_cons.mp hm with h | h
      · subst h; exact Or.inr (Or.inl hb)
      · exact Or.inr (Or.inr (.nested h hb))
  · rintro (rfl | hb | hq)
    · exact .here (List.mem_cons_self x queue)
    · exact .nested (List.mem_cons_self _ queue) hb
    · cases hq with
      | here hm => exact .here (List.mem_cons_of_mem s hm)
      | nested hm hb2 => exact .nested (List.mem_cons_of_mem s hm) hb2

theorem mem_walkBFS (x : PyStmt) : ∀ q : List PyStmt, x ∈ walkBFS q ↔ StmtIn x q
  | [] => by
    rw [walkBFS]
    simp only [List.not_mem_nil, false_iff]
    intro h
    cases h with
    | here hm => exact absurd hm (List.not_mem_nil x)
    | nested hm hb => exact absurd hm (List.not_mem_nil _)
  | s :: queue => by
    rw [walkBFS, List.mem_cons, mem_walkBFS x (queue ++ s.body),
      StmtIn_append, StmtIn_cons]
    tauto
termination_by q => sizeL q
decreasing_by
  rw [sizeL_append]
  have h1 := sizeL_body_lt s
  simp [sizeL]
  omega

/-- C9 amended: the Function children extracted for a parsed source file
are exactly the function definitions occurring anywhere in the file — at
any nesting depth, class methods and nested functions included — whose
names do not start with an underscore (and whose source segment is
non-empty), each hashed from its exact source span and carrying its name
and docstring. -/
theorem C9_extraction_any_depth (digest : String → String)
    (file_path : String) (body : List PyStmt) (node : MNode) :
    node ∈ extract_functions digest file_path body ↔
      ∃ name src doc b, StmtIn (.funcDef name src doc b) body ∧
        pyStartsWith name "_" = false ∧ src ≠ "" ∧
        node = .mk (digest src) (file_path ++ "::" ++ name) [] false true
          (some (digest src)) (some name) doc := by
  unfold extract_functions
  rw [List.mem_filterMap]
  constructor
  · rintro ⟨s, hs, hf⟩
    cases s with
    | funcDef name src doc b =>
      dsimp only at hf
      split at hf
      · cases hf
      · split at hf
        · cases hf
        · cases hf
          rename_i h1 h2
          exact ⟨name, src, doc, b, (mem_walkBFS _ _).mp hs,
            by simpa using h1, h2, rfl⟩
    | classDef nm b => cases hf
    | blockStmt b => cases hf
  · rintro ⟨name, src, doc, b, hin, h1, h2, rfl⟩
    refine ⟨.funcDef name src doc b, (mem_walkBFS _ _).mpr hin, ?_⟩
    dsimp only
    rw [h1]
    simp [h2]

/-- C4 amended: on a first run (previous snapshot absent) the diff
classifies exactly the file leaves of the tree as added — of any
extension, non-source files included — and nothing as modified or
removed; the tracked-source-extension restriction holds only for diffs
against an existing previous snapshot. -/
theorem C4_first_run_all_files_added (n : MNode) :
    (get_changes n none).modified = ∅ ∧
    (get_changes n none).removed = ∅ ∧
    ∀ p, p ∈ (get_changes n none).added ↔ FileLeaf n p := by
  refine ⟨rfl, rfl, ?_⟩
  intro p
  show p ∈ ((get_all_files n).map MNode.path).toFinset ↔ _
  rw [List.mem_toFinset]
  exact mem_get_all_files n p

theorem pyGet_mem {α : Type} {cs : List (String × α)} {nm : String} {c : α}
    (h : pyGet cs nm = some c) : ∃ pr ∈ cs, pr.2 = c := by
  unfold pyGet at h
  cases hf : cs.find? (fun pr => pr.1 == nm) with
  | none => rw [hf] at h; cases h
  | some pr =>
    rw [hf] at h
    simp at h
    exact ⟨pr, List.mem_of_find?_eq_some hf, h⟩

theorem childrenToNode_toDict (cs : List (String × MNode))
    (ih : ∀ pr ∈ cs, dict_to_node (node_to_dict pr.2) = pr.2) :
    childrenToNode (childrenToDict cs) = cs := by
  induction cs with
  | nil => rfl
  | cons pr rest iH =>
    obtain ⟨nm, c⟩ := pr
    have h1 : dict_to_node (node_to_dict c) = c :=
      ih (nm, c) (List.mem_cons_self _ _)
    have h2 : childrenToNode (childrenToDict rest) = rest :=
      iH (fun q hq => ih q (List.mem_cons_of_mem _ hq))
    simp only [childrenToDict, childrenToNode, h1, h2]

/-- Every node survives the get_state serialization followed by the
load_state deserialization unchanged. -/
theorem node_round_trip : ∀ n : MNode, dict_to_node (node_to_dict n) = n := by
  intro n
  induction n using MNode.induct with
  | step hs p cs f fn ch fnm fd ih =>
    rw [node_to_dict, dict_to_node, childrenToNode_toDict cs ih]

theorem cfnLoop_self (fs : List (String × MNode)) (p1 p2 : String) :
    ∀ (names : List String) (acc : Finset String),
      cfnLoop fs fs p1 p2 names acc = acc := by
  intro names
  induction names with
  | nil => intro acc; rfl
  | cons nm rest ih =>
    intro acc
    rw [cfnLoop]
    cases h : pyGet fs nm with
    | none => exact ih _
    | some c =>
      dsimp only
      have hif : (if c.hash ≠ c.hash then acc ∪ {p1} else acc) = acc := by
        simp
      rw [hif]
      exact ih _

theorem compareFunctionNodes_self (n : MNode) :
    compareFunctionNodes n n = ∅ := by
  unfold compareFunctionNodes
  exact cfnLoop_self _ _ _ _ ∅

theorem compareChildren_self (cs : List (String × MNode))
    (ih : ∀ pr ∈ cs, compareNodes pr.2 pr.2 = emptyAcc) :
    ∀ names : List String, compareChildren cs cs names = emptyAcc := by
  intro names
  induction names with
  | nil => rw [compareChildren]
  | cons nm rest iH =>
    rw [compareChildren, iH]
    cases h : pyGet cs nm with
    | none => simp [mergeAcc, emptyAcc]
    | some c =>
      obtain ⟨pr, hpr, hpr2⟩ := pyGet_mem h
      have hcc : compareNodes c c = emptyAcc := by
        rw [← hpr2]; exact ih pr hpr
      simp [hcc, mergeAcc, emptyAcc]

/-- Diffing a node against itself yields no change at all. -/
theorem compareNodes_self : ∀ n : MNode, compareNodes n n = emptyAcc := by
  intro n
  induction n using MNode.induct with
  | step hs p cs f fn ch fnm fd ih =>
    rw [compareNodes]
    cases f with
    | true =>
      simp only [MNode.is_file, Bool.and_self, if_pos]
      have hm0 : (if (MNode.mk hs p cs true fn ch fnm fd).hash ≠
          (MNode.mk hs p cs true fn ch fnm fd).hash then
          ({(MNode.mk hs p cs true fn ch fnm fd).path} : Finset String)
          else ∅) = ∅ := by simp
      rw [hm0]
      cases he : pyEndsWith (MNode.mk hs p cs true fn ch fnm fd).path ".py" with
      | true =>
        simp only [if_pos, compareFunctionNodes_self, emptyAcc]
        simp [emptyAcc]
      | false =>
        simp [emptyAcc]
    | false =>
      simp only [MNode.is_file, Bool.and_self, Bool.false_eq_true, if_false]
      exact compareChildren_self cs (fun pr hpr => ih pr hpr) _

/-- C8: the snapshot state round-trips exactly — loading the state
produced by get_state rebuilds a node-for-node identical tree (every
field preserved) — and re-diffing the reloaded snapshot against a freshly
computed tree of unchanged content yields an empty ChangeSet. -/
theorem C8_state_round_trip (n : MNode) :
    dict_to_node (node_to_dict n) = n ∧
    get_changes n (some (dict_to_node (node_to_dict n))) = emptyAcc := by
  have hr := node_round_trip n
  refine ⟨hr, ?_⟩
  rw [hr]
  show (⟨_, _, _⟩ : ChangeAcc) = emptyAcc
  rw [compareNodes_self n]
  simp [emptyAcc]

end Aflow
